import Mathlib

/-!
# TDSBridge-go: verification of the spec's claims against a shallow embedding

This file embeds the core of the TDSBridge-go repository (a transparent TCP
bridge for the SQL Server TDS protocol) in Lean 4 and settles the frozen
claims about it.

Modelling conventions:
* Go byte slices are `List Nat` (each element a byte value 0..255 as read
  from a socket; the embedding never relies on an upper bound unless stated).
* Go `int` arithmetic that can go negative (`PayloadSize`) is `Int`.
* Go `make([]byte, n)` with a negative `n` panics at runtime; functions that
  can reach such a panic return `Option` and model the panic as `none`.
* Go strings are sequences of runes; they are modelled as `List Nat` of
  Unicode code points.
* Socket reads in the ingress loop are modelled with read-exact semantics:
  a read of `k` bytes returns exactly `k` bytes when the client stream still
  holds at least `k` bytes, and the iteration stops otherwise (end of
  stream).  The special type-23 read, which reads "up to" 4088 bytes,
  returns all available bytes up to 4088.
-/

namespace TDSBridge

/-! ## Header codec (src/pkg, header part appended to README.md) -/

def HEADER_SIZE : Nat := 8

/-- Status bit masks from the source. -/
def NORMAL : Nat := 0x00
def END_OF_MESSAGE : Nat := 0x01
def IGNORE_EVENT : Nat := 0x02
def MULTI_PART_MESSAGE : Nat := 0x04
def RESET_CONNECTION : Nat := 0x08

/-- `TDSHeader` stores the raw 8 header bytes, exactly like the Go struct. -/
structure TDSHeader where
  Buffer : List Nat
deriving DecidableEq, Repr

/-- Go `NewTDSHeader`: allocate 8 zero bytes; copy the first 8 bytes of the
input over them only when the input holds at least 8 bytes. -/
def NewTDSHeader (buffer : List Nat) : TDSHeader :=
  if HEADER_SIZE ≤ buffer.length then ⟨buffer.take HEADER_SIZE⟩
  else ⟨List.replicate HEADER_SIZE 0⟩

/-- Go `(*TDSHeader).Type` (`HeaderType(h.Buffer[0])`). The name `Type` is
reserved in Lean, hence `headerType`. -/
def TDSHeader.headerType (h : TDSHeader) : Nat := h.Buffer.getD 0 0

/-- Go `(*TDSHeader).StatusBitMask` (`h.Buffer[1]`). -/
def TDSHeader.StatusBitMask (h : TDSHeader) : Nat := h.Buffer.getD 1 0

/-- Go `(*TDSHeader).LengthIncludingHeader`: big-endian 16-bit length,
`int(h.Buffer[2])*0x100 + int(h.Buffer[3])`. -/
def TDSHeader.LengthIncludingHeader (h : TDSHeader) : Nat :=
  h.Buffer.getD 2 0 * 0x100 + h.Buffer.getD 3 0

/-- Go `(*TDSHeader).PayloadSize`: `h.LengthIncludingHeader() - HEADER_SIZE`
on Go `int`s, which may be negative for a malformed header. -/
def TDSHeader.PayloadSize (h : TDSHeader) : Int :=
  (h.LengthIncludingHeader : Int) - (HEADER_SIZE : Int)

/-! ## Packet codec (src/pkg/packet.go) -/

structure TDSPacket where
  Header : TDSHeader
  Payload : List Nat
deriving DecidableEq, Repr

/-- Go `NewTDSPacket(header, payload, payloadSize)`:
`make([]byte, payloadSize)` (zeros; panics when `payloadSize < 0`, modelled
as `none`), then copies `payload[:payloadSize]` over it only when
`len(payload) >= payloadSize`. -/
def NewTDSPacket (header payload : List Nat) (payloadSize : Int) : Option TDSPacket :=
  if payloadSize < 0 then none
  else
    let n := payloadSize.toNat
    let tPayload := if n ≤ payload.length then payload.take n else List.replicate n 0
    some ⟨NewTDSHeader header, tPayload⟩

/-! ## Messages (src/pkg/message.go)

The Go code has one interface `TDSMessage` with four implementations that
all embed `*BaseTDSMessage` and add no state.  The embedding is a single
structure carrying the dynamic subtype as `kind` and the shared packet
list. -/

inductive MessageKind where
  | SQLBatch
  | RPCRequest
  | Attention
  | Default
deriving DecidableEq, Repr

structure TDSMessage where
  kind : MessageKind
  Packets : List TDSPacket
deriving DecidableEq, Repr

/-- Go `NewBaseTDSMessage` via `NewSQLBatchMessage`: empty packet list. -/
def NewSQLBatchMessage : TDSMessage := ⟨.SQLBatch, []⟩

/-- Go `NewRPCRequestMessage`: empty packet list. -/
def NewRPCRequestMessage : TDSMessage := ⟨.RPCRequest, []⟩

/-- Go `NewAttentionMessage`: empty packet list. -/
def NewAttentionMessage : TDSMessage := ⟨.Attention, []⟩

/-- Go `NewDefaultTDSMessage`: empty packet list. -/
def NewDefaultTDSMessage : TDSMessage := ⟨.Default, []⟩

/-- Go `(*BaseTDSMessage).IsComplete`: `false` for an empty packet list,
else tests `END_OF_MESSAGE` on the last packet's status byte. -/
def IsComplete (m : TDSMessage) : Bool :=
  match m.Packets.getLast? with
  | none => false
  | some lastPacket =>
    lastPacket.Header.StatusBitMask &&& END_OF_MESSAGE == END_OF_MESSAGE

/-- Go `(*BaseTDSMessage).HasIgnoreBitSet`: `false` for an empty packet
list, else tests `IGNORE_EVENT` on the last packet's status byte. -/
def HasIgnoreBitSet (m : TDSMessage) : Bool :=
  match m.Packets.getLast? with
  | none => false
  | some lastPacket =>
    lastPacket.Header.StatusBitMask &&& IGNORE_EVENT == IGNORE_EVENT

/-- Go `(*BaseTDSMessage).AssemblePayload`: concatenation of all packet
payloads in order. -/
def AssemblePayload (m : TDSMessage) : List Nat :=
  (m.Packets.map TDSPacket.Payload).flatten

/-- Go `(*BaseTDSMessage).AddPacket`: append to the packet list. -/
def TDSMessage.AddPacket (m : TDSMessage) (packet : TDSPacket) : TDSMessage :=
  { m with Packets := m.Packets ++ [packet] }

/-- Go `CreateTDSMessageFromFirstPacket`: switch on the first packet's
header type; `SQLBatch = 1`, `AttentionSignal = 6`, `RPC = 3`. -/
def CreateTDSMessageFromFirstPacket (firstPacket : TDSPacket) : TDSMessage :=
  match firstPacket.Header.headerType with
  | 1 => ⟨.SQLBatch, [firstPacket]⟩
  | 6 => ⟨.Attention, [firstPacket]⟩
  | 3 => ⟨.RPCRequest, [firstPacket]⟩
  | _ => ⟨.Default, [firstPacket]⟩

/-! ## Claim C5 -/

/-- Claim C5: for every packet built by `NewTDSPacket` from a header buffer
and a payload size equal to that header's declared `PayloadSize` (the way
the ingress loop calls it), the payload length equals
`LengthIncludingHeader - 8`. -/
theorem newTDSPacket_payload_length_eq_declared (hdr payload : List Nat) (p : TDSPacket)
    (h : NewTDSPacket hdr payload (NewTDSHeader hdr).PayloadSize = some p) :
    (p.Payload.length : Int) = (p.Header.LengthIncludingHeader : Int) - 8 := by
  unfold NewTDSPacket at h
  split at h
  · exact absurd h (by simp)
  · rename_i hng
    simp only [Option.some.injEq] at h
    subst h
    have hps : (0 : Int) ≤ (NewTDSHeader hdr).PayloadSize := by omega
    simp only []
    have hlen :
        (if (NewTDSHeader hdr).PayloadSize.toNat ≤ payload.length
          then payload.take (NewTDSHeader hdr).PayloadSize.toNat
          else List.replicate (NewTDSHeader hdr).PayloadSize.toNat 0).length
          = (NewTDSHeader hdr).PayloadSize.toNat := by
      split
      · simpa using by omega
      · simp
    rw [hlen]
    unfold TDSHeader.PayloadSize HEADER_SIZE at hps ⊢
    omega

/-- Witness for C5 at a concrete well-formed header (`LengthIncludingHeader
= 12`, so payload size 4). -/
theorem newTDSPacket_payload_length_eq_declared_witness :
    NewTDSPacket [1, 0, 0, 12, 0, 0, 0, 0] [9, 8, 7, 6, 5, 4]
        (NewTDSHeader [1, 0, 0, 12, 0, 0, 0, 0]).PayloadSize
      = some ⟨⟨[1, 0, 0, 12, 0, 0, 0, 0]⟩, [9, 8, 7, 6]⟩ ∧
    ((9 : Nat) :: [8, 7, 6]).length = ((⟨[1, 0, 0, 12, 0, 0, 0, 0]⟩ : TDSHeader).LengthIncludingHeader : Int) - 8 := by
  refine ⟨by decide, ?_⟩
  have := newTDSPacket_payload_length_eq_declared
    [1, 0, 0, 12, 0, 0, 0, 0] [9, 8, 7, 6, 5, 4]
    ⟨⟨[1, 0, 0, 12, 0, 0, 0, 0]⟩, [9, 8, 7, 6]⟩ (by decide)
  simpa using this

/-! ## Claim C6 (corrected) -/

/-- Counterexample for C6 as stated: the 8-byte header
`[1, 0, 0, 0, 0, 0, 0, 0]` declares `LengthIncludingHeader = 0`, so
`PayloadSize = -8`; `NewTDSPacket` then runs `make([]byte, -8)`, which
panics in Go (modelled as `none`): no Packet is produced. -/
theorem newTDSPacket_panics_on_negative_size :
    (NewTDSHeader [1, 0, 0, 0, 0, 0, 0, 0]).PayloadSize = -8 ∧
    NewTDSPacket [1, 0, 0, 0, 0, 0, 0, 0] []
      (NewTDSHeader [1, 0, 0, 0, 0, 0, 0, 0]).PayloadSize = none := by
  decide

/-- Claim C6, amended: `NewTDSHeader` is total (it always yields an 8-byte
header buffer, for inputs of any length), and `NewTDSPacket` produces a
Packet whenever the requested payload size is non-negative — i.e. whenever
the declared length-including-header is at least 8.  For a declared length
below 8 the negative `make` length makes `NewTDSPacket` panic. -/
theorem packet_construction_total_for_nonneg_size :
    (∀ buffer : List Nat, (NewTDSHeader buffer).Buffer.length = HEADER_SIZE) ∧
    (∀ (header payload : List Nat) (payloadSize : Int),
      0 ≤ payloadSize → (NewTDSPacket header payload payloadSize).isSome = true) := by
  constructor
  · intro buffer
    unfold NewTDSHeader
    split
    · simpa using by omega
    · simp
  · intro header payload payloadSize hps
    unfold NewTDSPacket
    split
    · omega
    · simp

/-- Witness for the amended C6: a malformed but non-negative case
(`LengthIncludingHeader = 8`, payload size 0) and a short header buffer. -/
theorem packet_construction_total_for_nonneg_size_witness :
    (NewTDSHeader [5]).Buffer.length = HEADER_SIZE ∧
    (NewTDSPacket [18, 0, 0, 8, 0, 0, 0, 0] [] 0).isSome = true := by
  exact ⟨packet_construction_total_for_nonneg_size.1 [5],
    packet_construction_total_for_nonneg_size.2 [18, 0, 0, 8, 0, 0, 0, 0] [] 0 (by decide)⟩

/-! ## Claim C8 -/

/-- Claim C8: classification of a message by its first packet's header type:
1 ↦ SQLBatch, 3 ↦ RPC request, 6 ↦ Attention, anything else ↦ Default; the
new message holds exactly the first packet. -/
theorem createTDSMessage_classifies (p : TDSPacket) :
    (p.Header.headerType = 1 → CreateTDSMessageFromFirstPacket p = ⟨.SQLBatch, [p]⟩) ∧
    (p.Header.headerType = 3 → CreateTDSMessageFromFirstPacket p = ⟨.RPCRequest, [p]⟩) ∧
    (p.Header.headerType = 6 → CreateTDSMessageFromFirstPacket p = ⟨.Attention, [p]⟩) ∧
    (p.Header.headerType ≠ 1 → p.Header.headerType ≠ 3 → p.Header.headerType ≠ 6 →
      CreateTDSMessageFromFirstPacket p = ⟨.Default, [p]⟩) := by
  unfold CreateTDSMessageFromFirstPacket
  refine ⟨fun h1 => ?_, fun h3 => ?_, fun h6 => ?_, fun n1 n3 n6 => ?_⟩
  · rw [h1]
  · rw [h3]
  · rw [h6]
  · rcases hty : p.Header.headerType with _ | _ | _ | _ | _ | _ | _ | k
    · rfl
    · exact absurd hty n1
    · rfl
    · exact absurd hty n3
    · rfl
    · rfl
    · exact absurd hty n6
    · rfl

/-- Witness for C8 at concrete packets of types 1, 3, 6 and 18. -/
theorem createTDSMessage_classifies_witness :
    CreateTDSMessageFromFirstPacket ⟨⟨[1, 1, 0, 8, 0, 0, 0, 0]⟩, []⟩ = ⟨.SQLBatch, [⟨⟨[1, 1, 0, 8, 0, 0, 0, 0]⟩, []⟩]⟩ ∧
    CreateTDSMessageFromFirstPacket ⟨⟨[3, 1, 0, 8, 0, 0, 0, 0]⟩, []⟩ = ⟨.RPCRequest, [⟨⟨[3, 1, 0, 8, 0, 0, 0, 0]⟩, []⟩]⟩ ∧
    CreateTDSMessageFromFirstPacket ⟨⟨[6, 1, 0, 8, 0, 0, 0, 0]⟩, []⟩ = ⟨.Attention, [⟨⟨[6, 1, 0, 8, 0, 0, 0, 0]⟩, []⟩]⟩ ∧
    CreateTDSMessageFromFirstPacket ⟨⟨[18, 1, 0, 8, 0, 0, 0, 0]⟩, []⟩ = ⟨.Default, [⟨⟨[18, 1, 0, 8, 0, 0, 0, 0]⟩, []⟩]⟩ := by
  exact ⟨(createTDSMessage_classifies _).1 (by decide),
    (createTDSMessage_classifies _).2.1 (by decide),
    (createTDSMessage_classifies _).2.2.1 (by decide),
    (createTDSMessage_classifies _).2.2.2 (by decide) (by decide) (by decide)⟩

/-! ## Claim C10 -/

/-- Claim C10: on a message with an empty packet list (as produced by the
exported no-packet constructors), `IsComplete` and `HasIgnoreBitSet` both
return `false`; the explicit `len(m.Packets) == 0` guard in the source means
neither indexes a non-existent last packet. -/
theorem empty_message_not_complete_no_ignore (m : TDSMessage)
    (h : m.Packets = []) :
    IsComplete m = false ∧ HasIgnoreBitSet m = false := by
  unfold IsComplete HasIgnoreBitSet
  rw [h]
  exact ⟨rfl, rfl⟩

/-- Witness for C10 at the no-packet constructors. -/
theorem empty_message_not_complete_no_ignore_witness :
    (IsComplete NewSQLBatchMessage = false ∧ HasIgnoreBitSet NewSQLBatchMessage = false) ∧
    (IsComplete NewAttentionMessage = false ∧ HasIgnoreBitSet NewAttentionMessage = false) := by
  exact ⟨empty_message_not_complete_no_ignore NewSQLBatchMessage rfl,
    empty_message_not_complete_no_ignore NewAttentionMessage rfl⟩

/-! ## ALL_HEADERS and SQLBatch text extraction (src/pkg/message.go and the
header part appended to README.md) -/

structure AllHeader where
  Payload : List Nat
deriving DecidableEq, Repr

/-- Go `NewAllHeader`: stores the payload slice. -/
def NewAllHeader (payload : List Nat) : AllHeader := ⟨payload⟩

/-- Go `(*AllHeader).Length`: little-endian 32-bit value of the first four
payload bytes, `0` when the payload holds fewer than four bytes.  The Go
`uint32` multiplications cannot overflow for byte-valued inputs. -/
def AllHeader.Length (ah : AllHeader) : Nat :=
  if 4 ≤ ah.Payload.length then
    ah.Payload.getD 3 0 * 0x01000000 + ah.Payload.getD 2 0 * 0x00010000 +
      ah.Payload.getD 1 0 * 0x00000100 + ah.Payload.getD 0 0 * 0x00000001
  else 0

/-- Go `unicode/utf16.Decode` on a list of 16-bit units: a unit outside the
surrogate range decodes to itself; a high surrogate followed by a low
surrogate decodes to the combined supplementary code point; any other
surrogate decodes to U+FFFD. -/
def utf16Decode : List Nat → List Nat
  | [] => []
  | [r] => if r < 0xD800 ∨ 0xE000 ≤ r then [r] else [0xFFFD]
  | r :: r2 :: rest =>
    if r < 0xD800 ∨ 0xE000 ≤ r then r :: utf16Decode (r2 :: rest)
    else if r < 0xDC00 ∧ 0xDC00 ≤ r2 ∧ r2 < 0xE000 then
      (0x10000 + (r - 0xD800) * 0x400 + (r2 - 0xDC00)) :: utf16Decode rest
    else 0xFFFD :: utf16Decode (r2 :: rest)

/-- The manual loop in Go `GetBatchText` building `utf16Runes`:
`utf16Runes[i] = uint16(utf16Bytes[i*2]) + uint16(utf16Bytes[i*2+1])<<8`
for `i < len(utf16Bytes)/2`. -/
def utf16RunesOf (bs : List Nat) : List Nat :=
  (List.range (bs.length / 2)).map fun i => bs.getD (i * 2) 0 + bs.getD (i * 2 + 1) 0 * 0x100

/-- Go `(*SQLBatchMessage).GetBatchText`: assemble the payload, read the
ALL_HEADERS length, and when the payload is longer than that length decode
the remainder as UTF-16LE; otherwise return the empty string.  Strings are
modelled as lists of Unicode code points. -/
def GetBatchText (m : TDSMessage) : List Nat :=
  let payload := AssemblePayload m
  let headerLength := (NewAllHeader payload).Length
  if headerLength < payload.length then
    utf16Decode (utf16RunesOf (payload.drop headerLength))
  else []

/-! Spec-side definitions for C2 and C3, written from the claims' words:
the ALL_HEADERS length is "given by its first 4 little-endian bytes", and
the text is decoded "two bytes per code unit in little-endian order". -/

/-- Spec-side: the ALL_HEADERS length read from the first four bytes,
little-endian. -/
def specAllHeadersLen (payload : List Nat) : Nat :=
  payload.getD 0 0 + payload.getD 1 0 * 0x100 +
    payload.getD 2 0 * 0x10000 + payload.getD 3 0 * 0x1000000

/-- Spec-side: group a byte list two bytes per code unit, little-endian; a
trailing odd byte is dropped. -/
def pairLE : List Nat → List Nat
  | b0 :: b1 :: rest => (b0 + b1 * 0x100) :: pairLE rest
  | _ => []

/-- Spec-side: UTF-16 encoding of one Unicode scalar value. -/
def utf16EncodeChar (c : Nat) : List Nat :=
  if c < 0x10000 then [c]
  else [0xD800 + (c - 0x10000) / 0x400, 0xDC00 + (c - 0x10000) % 0x400]

/-- Spec-side: UTF-16 encoding of a text (list of scalar values). -/
def utf16Encode (s : List Nat) : List Nat := (s.map utf16EncodeChar).flatten

/-- Spec-side: serialize 16-bit units little-endian, two bytes each. -/
def bytesOfUnits (us : List Nat) : List Nat :=
  (us.map fun u => [u % 0x100, u / 0x100]).flatten

/-- Spec-side: UTF-16LE byte encoding of a text. -/
def utf16le (s : List Nat) : List Nat := bytesOfUnits (utf16Encode s)

/-- A Unicode scalar value: in range and not a surrogate.  Go strings
iterate as such runes. -/
def ValidScalar (c : Nat) : Prop := c < 0x110000 ∧ (c < 0xD800 ∨ 0xE000 ≤ c)

instance : DecidablePred ValidScalar := fun c => by
  unfold ValidScalar; infer_instance

/-! ### Helper lemmas for the UTF-16 codec -/

theorem utf16Decode_cons_bmp (r : Nat) (rest : List Nat)
    (h : r < 0xD800 ∨ 0xE000 ≤ r) :
    utf16Decode (r :: rest) = r :: utf16Decode rest := by
  cases rest with
  | nil => simp only [utf16Decode]; rw [if_pos h]
  | cons r2 rest2 => simp only [utf16Decode]; rw [if_pos h]

theorem utf16Decode_cons_pair (r1 r2 : Nat) (rest : List Nat)
    (h1 : ¬(r1 < 0xD800 ∨ 0xE000 ≤ r1))
    (h2 : r1 < 0xDC00 ∧ 0xDC00 ≤ r2 ∧ r2 < 0xE000) :
    utf16Decode (r1 :: r2 :: rest) =
      (0x10000 + (r1 - 0xD800) * 0x400 + (r2 - 0xDC00)) :: utf16Decode rest := by
  simp only [utf16Decode]
  rw [if_neg h1, if_pos h2]

theorem utf16RunesOf_cons_cons (b0 b1 : Nat) (rest : List Nat) :
    utf16RunesOf (b0 :: b1 :: rest) = (b0 + b1 * 0x100) :: utf16RunesOf rest := by
  unfold utf16RunesOf
  have h2 : (b0 :: b1 :: rest).length / 2 = rest.length / 2 + 1 := by
    simp only [List.length_cons]; omega
  rw [h2, List.range_succ_eq_map, List.map_cons, List.map_map]
  refine congrArg₂ List.cons ?_ ?_
  · simp
  · apply List.map_congr_left
    intro i _
    simp only [Function.comp_apply]
    have e1 : Nat.succ i * 2 = i * 2 + 1 + 1 := by omega
    rw [e1]
    rw [List.getD_cons_succ, List.getD_cons_succ, List.getD_cons_succ, List.getD_cons_succ]

/-- The index loop of `GetBatchText` computes exactly the two-bytes-per-unit
little-endian grouping. -/
theorem utf16RunesOf_eq_pairLE : ∀ bs : List Nat, utf16RunesOf bs = pairLE bs
  | [] => by simp [utf16RunesOf, pairLE]
  | [b] => by simp [utf16RunesOf, pairLE]
  | b0 :: b1 :: rest => by
    rw [utf16RunesOf_cons_cons]
    simp only [pairLE]
    rw [utf16RunesOf_eq_pairLE rest]

/-- Little-endian serialization of 16-bit units round-trips through the
byte pairing. -/
theorem pairLE_bytesOfUnits : ∀ us : List Nat, pairLE (bytesOfUnits us) = us
  | [] => rfl
  | u :: us => by
    have ih := pairLE_bytesOfUnits us
    unfold bytesOfUnits at ih ⊢
    simp only [List.map_cons, List.flatten_cons, List.cons_append, List.nil_append]
    rw [pairLE, ih]
    congr 1
    omega

/-- UTF-16 decoding inverts UTF-16 encoding on valid scalar values. -/
theorem utf16Decode_utf16Encode : ∀ s : List Nat, (∀ c ∈ s, ValidScalar c) →
    utf16Decode (utf16Encode s) = s
  | [], _ => rfl
  | c :: s, h => by
    have hc : ValidScalar c := h c (List.mem_cons_self c s)
    have hs : ∀ x ∈ s, ValidScalar x := fun x hx => h x (List.mem_cons_of_mem c hx)
    have ih := utf16Decode_utf16Encode s hs
    have head : utf16Encode (c :: s) = utf16EncodeChar c ++ utf16Encode s := by
      unfold utf16Encode
      rw [List.map_cons, List.flatten_cons]
    rw [head]
    by_cases hb : c < 0x10000
    · rw [show utf16EncodeChar c = [c] from by unfold utf16EncodeChar; rw [if_pos hb]]
      simp only [List.cons_append, List.nil_append]
      rw [utf16Decode_cons_bmp c _ hc.2, ih]
    · rw [show utf16EncodeChar c =
          [0xD800 + (c - 0x10000) / 0x400, 0xDC00 + (c - 0x10000) % 0x400] from by
        unfold utf16EncodeChar; rw [if_neg hb]]
      simp only [List.cons_append, List.nil_append]
      have hcv := hc.1
      have ha1 : ¬(0xD800 + (c - 0x10000) / 0x400 < 0xD800 ∨
          0xE000 ≤ 0xD800 + (c - 0x10000) / 0x400) := by omega
      have ha2 : 0xD800 + (c - 0x10000) / 0x400 < 0xDC00 := by omega
      have ha3 : 0xDC00 ≤ 0xDC00 + (c - 0x10000) % 0x400 := by omega
      have ha4 : 0xDC00 + (c - 0x10000) % 0x400 < 0xE000 := by omega
      have hrw := utf16Decode_cons_pair (0xD800 + (c - 0x10000) / 0x400)
        (0xDC00 + (c - 0x10000) % 0x400) (utf16Encode s) ha1 ⟨ha2, ha3, ha4⟩
      rw [hrw, ih]
      have harith : 0x10000 + (0xD800 + (c - 0x10000) / 0x400 - 0xD800) * 0x400 +
          (0xDC00 + (c - 0x10000) % 0x400 - 0xDC00) = c := by omega
      rw [harith]

/-- Encoding a non-empty text yields at least one byte. -/
theorem utf16le_cons_pos (c : Nat) (s : List Nat) : 0 < (utf16le (c :: s)).length := by
  unfold utf16le bytesOfUnits utf16Encode utf16EncodeChar
  by_cases hb : c < 0x10000 <;> simp [hb]

/-- On a payload of at least four bytes, the source's `AllHeader.Length`
computes the little-endian value the spec describes. -/
theorem newAllHeader_length (payload : List Nat) (h4 : 4 ≤ payload.length) :
    (NewAllHeader payload).Length = specAllHeadersLen payload := by
  have hdef : (NewAllHeader payload).Length =
      if 4 ≤ payload.length then
        payload.getD 3 0 * 0x01000000 + payload.getD 2 0 * 0x00010000 +
          payload.getD 1 0 * 0x00000100 + payload.getD 0 0 * 0x00000001
      else 0 := rfl
  rw [hdef, if_pos h4]
  unfold specAllHeadersLen
  ring

/-! ## Claim C2 -/

/-- Claim C2: for a complete SQLBatch message, when the assembled payload is
not longer than the ALL_HEADERS length read little-endian from its first
four bytes, `GetBatchText` returns the empty string (and never fails);
otherwise it returns the UTF-16LE decoding — two bytes per code unit,
little-endian — of the bytes from offset `ALL_HEADERS.length` to the end. -/
theorem getBatchText_spec (m : TDSMessage)
    (_hkind : m.kind = MessageKind.SQLBatch) (_hcomp : IsComplete m = true)
    (hlen : 4 ≤ (AssemblePayload m).length) :
    GetBatchText m =
      if specAllHeadersLen (AssemblePayload m) < (AssemblePayload m).length then
        utf16Decode (pairLE ((AssemblePayload m).drop (specAllHeadersLen (AssemblePayload m))))
      else [] := by
  simp only [GetBatchText]
  rw [newAllHeader_length _ hlen, utf16RunesOf_eq_pairLE]

/-- Witness for C2: a one-packet complete SQLBatch whose payload is a
4-byte ALL_HEADERS block followed by UTF-16LE "hi". -/
theorem getBatchText_spec_witness :
    GetBatchText ⟨.SQLBatch, [⟨⟨[1, 1, 0, 16, 0, 0, 0, 0]⟩, [4, 0, 0, 0, 104, 0, 105, 0]⟩]⟩ =
      if specAllHeadersLen (AssemblePayload ⟨.SQLBatch, [⟨⟨[1, 1, 0, 16, 0, 0, 0, 0]⟩, [4, 0, 0, 0, 104, 0, 105, 0]⟩]⟩) <
          (AssemblePayload ⟨.SQLBatch, [⟨⟨[1, 1, 0, 16, 0, 0, 0, 0]⟩, [4, 0, 0, 0, 104, 0, 105, 0]⟩]⟩).length then
        utf16Decode (pairLE ((AssemblePayload ⟨.SQLBatch, [⟨⟨[1, 1, 0, 16, 0, 0, 0, 0]⟩, [4, 0, 0, 0, 104, 0, 105, 0]⟩]⟩).drop
          (specAllHeadersLen (AssemblePayload ⟨.SQLBatch, [⟨⟨[1, 1, 0, 16, 0, 0, 0, 0]⟩, [4, 0, 0, 0, 104, 0, 105, 0]⟩]⟩))))
      else [] := by
  exact getBatchText_spec _ rfl (by decide) (by decide)

/-! ## Claim C3 -/

/-- Claim C3 (round-trip): take any text `S` of Unicode scalar values and
any complete SQLBatch message whose assembled payload is a well-formed
ALL_HEADERS block — its first four bytes encode, little-endian, the block's
own total length `n < 2^32` — followed by the UTF-16LE encoding of `S`.
Then `GetBatchText` returns exactly `S`. -/
theorem getBatchText_roundtrip (m : TDSMessage) (Brest S : List Nat) (n : Nat)
    (_hkind : m.kind = MessageKind.SQLBatch) (_hcomp : IsComplete m = true)
    (hn : n = Brest.length + 4) (hn32 : n < 0x100000000)
    (hassemble : AssemblePayload m =
      ([n % 0x100, n / 0x100 % 0x100, n / 0x10000 % 0x100, n / 0x1000000 % 0x100] ++ Brest)
        ++ utf16le S)
    (hS : ∀ c ∈ S, ValidScalar c) :
    GetBatchText m = S := by
  have hblen : ([n % 0x100, n / 0x100 % 0x100, n / 0x10000 % 0x100, n / 0x1000000 % 0x100]
      ++ Brest).length = n := by
    simp only [List.length_append, List.length_cons, List.length_nil]
    omega
  have hplen : (AssemblePayload m).length = n + (utf16le S).length := by
    rw [hassemble, List.length_append, hblen]
  have h4 : 4 ≤ (AssemblePayload m).length := by omega
  have hL : (NewAllHeader (AssemblePayload m)).Length = n := by
    rw [newAllHeader_length _ h4]
    unfold specAllHeadersLen
    rw [hassemble]
    simp only [List.cons_append, List.nil_append,
      List.getD_cons_zero, List.getD_cons_succ]
    omega
  have hdrop : (AssemblePayload m).drop n = utf16le S := by
    rw [hassemble]
    exact List.drop_left' hblen
  simp only [GetBatchText]
  rw [hL]
  cases S with
  | nil =>
    rw [if_neg (by simp [utf16le, bytesOfUnits, utf16Encode] at hplen; omega)]
  | cons c s =>
    rw [if_pos (by have := utf16le_cons_pos c s; omega)]
    rw [hdrop, utf16RunesOf_eq_pairLE]
    unfold utf16le
    rw [pairLE_bytesOfUnits, utf16Decode_utf16Encode _ hS]

/-- Witness for C3 at the block `[4,0,0,0]` (length 4) and the text "hi". -/
theorem getBatchText_roundtrip_witness :
    GetBatchText ⟨.SQLBatch, [⟨⟨[1, 1, 0, 16, 0, 0, 0, 0]⟩, [4, 0, 0, 0, 104, 0, 105, 0]⟩]⟩ = [104, 105] := by
  exact getBatchText_roundtrip _ [] [104, 105] 4 rfl (by decide) (by decide) (by decide)
    (by decide) (by decide)

/-! ## The program entry point (src/main.go)

`main` parses arguments, resolves the SQL Server host, starts the bridge
acceptor, waits for a line on standard input and stops.  Every branch —
usage display, resolution failure, bind failure, graceful shutdown — ends
by returning from `main`, and a Go program whose `main` returns exits with
status code 0; `main.go` never calls `os.Exit`.  The model takes the
environment (argument list, result of `net.LookupHost`, result of
`BridgeAcceptor.Start`) as inputs and returns the observable console events
together with the process exit code.  A successful lookup is represented by
the first resolved address (Go uses `iphe[0]`). -/

inductive MainEvent where
  | usage
  | errResolve
  | errStart
  | promptAndRun
deriving DecidableEq, Repr

/-- Model of `main`: `len(os.Args) < 4` (program name plus fewer than three
user arguments) prints usage and returns; a resolution error prints and
returns; a `Start` error prints and returns; otherwise the program runs
until a newline on stdin, stops the acceptor and returns.  The second
component is the process exit code. -/
def mainRun (args : List String) (lookup : Except String String)
    (start : Except String Unit) : List MainEvent × Nat :=
  if args.length < 4 then ([.usage], 0)
  else
    match lookup with
    | .error _ => ([.errResolve], 0)
    | .ok _ =>
      match start with
      | .error _ => ([.errStart], 0)
      | .ok _ => ([.promptAndRun], 0)

/-! ## Claim C9 (corrected) -/

/-- Counterexample for C9 as stated: on a host-resolution failure (and
likewise on a bind failure) `main` merely prints the error and returns, so
the process exits with code 0, not a non-zero code. -/
theorem mainRun_zero_exit_on_startup_failure :
    (mainRun ["tdsbridge", "1433", "badhost", "1433"]
      (Except.error "no such host") (Except.ok ())).2 = 0 ∧
    (mainRun ["tdsbridge", "1433", "host", "1433"]
      (Except.ok "10.0.0.1") (Except.error "bind: address already in use")).2 = 0 := by
  decide

/-- Claim C9, amended: the process exits with code zero on every path —
graceful shutdown, usage display (fewer than three user arguments), and
also on the startup failures (resolution, bind), where the error is only
printed. -/
theorem mainRun_exit_code_always_zero (args : List String)
    (lookup : Except String String) (start : Except String Unit) :
    (mainRun args lookup start).2 = 0 ∧
    (args.length < 4 → (mainRun args lookup start).1 = [.usage]) := by
  unfold mainRun
  constructor
  · split
    · rfl
    · cases lookup with
      | error e => rfl
      | ok a => cases start with
        | error e => rfl
        | ok u => rfl
  · intro hlt
    rw [if_pos hlt]

/-- Witness for the amended C9 at a concrete under-length argument list. -/
theorem mainRun_exit_code_always_zero_witness :
    (mainRun ["tdsbridge"] (Except.ok "10.0.0.1") (Except.ok ())).2 = 0 ∧
    (mainRun ["tdsbridge"] (Except.ok "10.0.0.1") (Except.ok ())).1 = [.usage] := by
  exact ⟨(mainRun_exit_code_always_zero _ _ _).1,
    (mainRun_exit_code_always_zero ["tdsbridge"] (Except.ok "10.0.0.1") (Except.ok ())).2 (by decide)⟩

/-! ## The ingress loop (src/pkg/connection.go, clientBridgeToSQLServer)

The ingress direction of a bridged connection repeatedly reads an 8-byte
header and a payload from the client socket, publishes callbacks, and
forwards the bytes to the upstream socket.  The loop is modelled as a step
function over a state holding the unread client stream, the scratch payload
buffer `bBuffer` (which persists across iterations and is only reallocated
when too small), and the in-progress message `tdsMessage`.  A step returns
`none` when the loop stops: end of stream, or the Go panic on a negative
`make`/slice length reached through `NewTDSPacket`. -/

inductive Event where
  | packetReceived (p : TDSPacket)
  | messageReceived (m : TDSMessage)
deriving DecidableEq, Repr

structure LoopState where
  stream : List Nat
  bBuffer : List Nat
  msg : Option TDSMessage
deriving DecidableEq, Repr

structure StepOut where
  written : List Nat
  packet : TDSPacket
  events : List Event
  payloadRequest : Option Nat
  payloadRead : List Nat
  state : LoopState
deriving DecidableEq, Repr

/-- The payload-read branch (connection.go lines 293-298): for header type
23, read into `bBuffer[:0x1000-HEADER_SIZE]` — modelled as returning all
available bytes up to 4088, end of stream when none remain; for a positive
declared payload size, read exactly that many bytes (end of stream when
fewer remain); otherwise skip the read.  Returns the byte count read. -/
def readReceived (header : TDSHeader) (rest1 : List Nat) : Option Nat :=
  if header.headerType = 23 then
    if rest1.length = 0 then none
    else some (min (0x1000 - HEADER_SIZE) rest1.length)
  else if 0 < header.PayloadSize then
    if rest1.length < header.PayloadSize.toNat then none
    else some header.PayloadSize.toNat
  else some 0

/-- The size passed to the payload `Read` call of an iteration; `none` when
the read is skipped (header type other than 23 with `PayloadSize ≤ 0`). -/
def payloadRequestOf (header : TDSHeader) : Option Nat :=
  if header.headerType = 23 then some (0x1000 - HEADER_SIZE)
  else if 0 < header.PayloadSize then some header.PayloadSize.toNat
  else none

/-- One iteration of `clientBridgeToSQLServer` (lines 275-342): read the
8-byte header; parse it; grow `bBuffer` to `max(0x1000,
LengthIncludingHeader+1)` if needed; run the payload read; build the packet
with `NewTDSPacket(bHeader, bBuffer, header.PayloadSize())`; publish the
packet-received callback, then the message-received callback when the
header has `END_OF_MESSAGE`; write the header bytes upstream, then
`bBuffer[:received]` for type 23 and `bBuffer[:header.PayloadSize()]`
otherwise. -/
def ingressStep (st : LoopState) : Option StepOut :=
  if st.stream.length < HEADER_SIZE then none
  else
    let bHeader := st.stream.take HEADER_SIZE
    let header := NewTDSHeader bHeader
    let rest1 := st.stream.drop HEADER_SIZE
    let minBufferSize := max 0x1000 (header.LengthIncludingHeader + 1)
    let buf0 := if st.bBuffer.length < minBufferSize
      then List.replicate minBufferSize 0 else st.bBuffer
    match readReceived header rest1 with
    | none => none
    | some received =>
      let buf1 := rest1.take received ++ buf0.drop received
      match NewTDSPacket bHeader buf1 header.PayloadSize with
      | none => none
      | some tdsPacket =>
        let msg1 := match st.msg with
          | none => CreateTDSMessageFromFirstPacket tdsPacket
          | some m => m.AddPacket tdsPacket
        if header.StatusBitMask &&& END_OF_MESSAGE = END_OF_MESSAGE then
          some { written := bHeader ++ (if header.headerType = 23
                   then buf1.take received else buf1.take header.PayloadSize.toNat),
                 packet := tdsPacket,
                 events := [.packetReceived tdsPacket, .messageReceived msg1],
                 payloadRequest := payloadRequestOf header,
                 payloadRead := rest1.take received,
                 state := ⟨rest1.drop received, buf1, none⟩ }
        else
          some { written := bHeader ++ (if header.headerType = 23
                   then buf1.take received else buf1.take header.PayloadSize.toNat),
                 packet := tdsPacket,
                 events := [.packetReceived tdsPacket],
                 payloadRequest := payloadRequestOf header,
                 payloadRead := rest1.take received,
                 state := ⟨rest1.drop received, buf1, some msg1⟩ }

structure LoopOut where
  written : List Nat
  packets : List TDSPacket
  events : List Event
  state : LoopState
deriving DecidableEq, Repr

/-- The ingress loop: iterate `ingressStep` (with fuel, since the Go loop
runs until the connection ends), accumulating the bytes written upstream,
the packets published, and the callback events, in order. -/
def ingressLoop : Nat → LoopState → LoopOut
  | 0, st => ⟨[], [], [], st⟩
  | fuel + 1, st =>
    match ingressStep st with
    | none => ⟨[], [], [], st⟩
    | some out =>
      let r := ingressLoop fuel out.state
      ⟨out.written ++ r.written, out.packet :: r.packets, out.events ++ r.events, r.state⟩

/-- Bytes one iteration writes upstream (empty when the loop stops). -/
def stepWritten (st : LoopState) : List Nat :=
  match ingressStep st with
  | none => []
  | some out => out.written

/-- Client bytes still unread after one iteration. -/
def stepRemaining (st : LoopState) : List Nat :=
  match ingressStep st with
  | none => st.stream
  | some out => out.state.stream

/-! ### Spec-side notions for C1/C4/C7 -/

/-- A packet carries the end-of-message status bit. -/
def eomSet (p : TDSPacket) : Bool :=
  p.Header.StatusBitMask &&& END_OF_MESSAGE == END_OF_MESSAGE

/-- The message-building step of the loop (lines 312-316): start a message
from a first packet, or append to the in-progress one. -/
def accumulate (acc : Option TDSMessage) (p : TDSPacket) : TDSMessage :=
  match acc with
  | none => CreateTDSMessageFromFirstPacket p
  | some m => m.AddPacket p

/-! ### Helper lemmas about one ingress step -/

theorem readReceived_le (header : TDSHeader) (rest1 : List Nat) (k : Nat)
    (h : readReceived header rest1 = some k) :
    k ≤ rest1.length ∧ (header.headerType ≠ 23 → k = header.PayloadSize.toNat) := by
  unfold readReceived at h
  split at h
  · rename_i h23
    split at h
    · exact absurd h (by simp)
    · simp only [Option.some.injEq] at h
      subst h
      exact ⟨by omega, fun hne => absurd h23 hne⟩
  · split at h
    · split at h
      · exact absurd h (by simp)
      · simp only [Option.some.injEq] at h
        subst h
        exact ⟨by omega, fun _ => rfl⟩
    · rename_i hnpos
      simp only [Option.some.injEq] at h
      subst h
      exact ⟨Nat.zero_le _, fun _ => by omega⟩

theorem newTDSPacket_header_eq (hdr pl : List Nat) (sz : Int) (p : TDSPacket)
    (h : NewTDSPacket hdr pl sz = some p) : p.Header = NewTDSHeader hdr := by
  unfold NewTDSPacket at h
  split at h
  · exact absurd h (by simp)
  · simp only [Option.some.injEq] at h
    subst h
    rfl

theorem take_take_append (l b : List Nat) (k : Nat) (hk : k ≤ l.length) :
    (l.take k ++ b).take k = l.take k := by
  apply List.take_left'
  rw [List.length_take]
  omega

/-- Characterization of a successful ingress iteration: the header bytes
are the first 8 stream bytes, the payload read takes the next `received`
bytes, exactly header-plus-read bytes are written, the remaining stream is
what follows, the packet carries the parsed header, the events are the
packet event followed by a message event exactly when the end-of-message
bit is set, and the in-progress message advances accordingly. -/
theorem ingressStep_char (st : LoopState) (out : StepOut)
    (h : ingressStep st = some out) :
    HEADER_SIZE ≤ st.stream.length ∧
    (∃ received,
      readReceived (NewTDSHeader (st.stream.take HEADER_SIZE)) (st.stream.drop HEADER_SIZE)
        = some received ∧
      out.payloadRead = (st.stream.drop HEADER_SIZE).take received ∧
      out.state.stream = (st.stream.drop HEADER_SIZE).drop received) ∧
    out.written = st.stream.take HEADER_SIZE ++ out.payloadRead ∧
    out.packet.Header = NewTDSHeader (st.stream.take HEADER_SIZE) ∧
    out.payloadRequest = payloadRequestOf (NewTDSHeader (st.stream.take HEADER_SIZE)) ∧
    out.events = (if eomSet out.packet
      then [Event.packetReceived out.packet, Event.messageReceived (accumulate st.msg out.packet)]
      else [Event.packetReceived out.packet]) ∧
    out.state.msg = (if eomSet out.packet then none else some (accumulate st.msg out.packet)) := by
  unfold ingressStep at h
  split at h
  · exact absurd h (by simp)
  · rename_i hlen
    simp only [] at h
    split at h
    · exact absurd h (by simp)
    · rename_i received hr
      split at h
      · exact absurd h (by simp)
      · rename_i tdsPacket hp
        have hdr := newTDSPacket_header_eq _ _ _ _ hp
        have hrle := readReceived_le _ _ _ hr
        split at h
        · rename_i heom
          simp only [Option.some.injEq] at h
          subst h
          have he : eomSet tdsPacket = true := by
            unfold eomSet
            rw [hdr]
            exact beq_iff_eq.mpr heom
          refine ⟨by omega, ⟨received, hr, rfl, rfl⟩, ?_, hdr, rfl, ?_, ?_⟩
          · dsimp only
            congr 1
            split
            · exact take_take_append _ _ _ hrle.1
            · rename_i hne
              rw [← hrle.2 hne]
              exact take_take_append _ _ _ hrle.1
          · dsimp only [accumulate]
            rw [he]
            simp
          · dsimp only [accumulate]
            rw [he]
            simp
        · rename_i heom
          simp only [Option.some.injEq] at h
          subst h
          have he : eomSet tdsPacket = false := by
            unfold eomSet
            rw [hdr]
            exact beq_eq_false_iff_ne.mpr heom
          refine ⟨by omega, ⟨received, hr, rfl, rfl⟩, ?_, hdr, rfl, ?_, ?_⟩
          · dsimp only
            congr 1
            split
            · exact take_take_append _ _ _ hrle.1
            · rename_i hne
              rw [← hrle.2 hne]
              exact take_take_append _ _ _ hrle.1
          · dsimp only [accumulate]
            rw [he]
            simp
          · dsimp only [accumulate]
            rw [he]
            simp

/-- When the declared payload size is negative (length-including-header
below 8), the iteration reaches the Go panic inside `NewTDSPacket` and
terminates without writing anything. -/
theorem ingressStep_none_of_neg_payload (st : LoopState)
    (hlen : ¬st.stream.length < HEADER_SIZE)
    (hneg : (NewTDSHeader (st.stream.take HEADER_SIZE)).PayloadSize < 0) :
    ingressStep st = none := by
  unfold ingressStep
  rw [if_neg hlen]
  simp only []
  split
  · rfl
  · split
    · rfl
    · rename_i p hp
      unfold NewTDSPacket at hp
      rw [if_pos hneg] at hp
      exact absurd hp (by simp)

/-! ## Claim C1 -/

/-- Claim C1 (client-to-upstream byte transparency): each successful
iteration of the ingress loop writes to the upstream socket exactly the
bytes it consumed from the client — the 8 header bytes followed by the
payload bytes read — before the next packet is read, so the written bytes
followed by the still-unread stream reconstitute the client stream; and
over any number of iterations, everything written upstream followed by the
unread remainder equals the original client stream: the path inserts,
removes and rewrites nothing. -/
theorem clientBridge_transparent :
    (∀ st : LoopState, stepWritten st ++ stepRemaining st = st.stream) ∧
    (∀ (fuel : Nat) (st : LoopState),
      (ingressLoop fuel st).written ++ (ingressLoop fuel st).state.stream = st.stream) := by
  have hstep : ∀ st : LoopState, stepWritten st ++ stepRemaining st = st.stream := by
    intro st
    unfold stepWritten stepRemaining
    cases hs : ingressStep st with
    | none => simp
    | some out =>
      dsimp only
      obtain ⟨hlen, ⟨received, hr, hpr, hst⟩, hw, -, -, -, -⟩ := ingressStep_char st out hs
      rw [hw, hpr, hst, List.append_assoc, List.take_append_drop, List.take_append_drop]
  refine ⟨hstep, ?_⟩
  intro fuel
  induction fuel with
  | zero =>
    intro st
    simp [ingressLoop]
  | succ n ih =>
    intro st
    cases hs : ingressStep st with
    | none => simp [ingressLoop, hs]
    | some out =>
      have h1 := hstep st
      unfold stepWritten stepRemaining at h1
      rw [hs] at h1
      dsimp only at h1
      simp only [ingressLoop, hs]
      rw [List.append_assoc, ih out.state]
      exact h1

/-! ## Claim C7 (corrected) -/

/-- Counterexample for C7 as stated: the header `[1, 0, 0, 5, 0, 0, 0, 0]`
has type 1 (not 23) and declared payload size `-3`; the claim demands that
"exactly payload_size bytes are forwarded upstream", but the iteration
panics in `NewTDSPacket` (negative `make` length) and forwards nothing —
not even the header bytes. -/
theorem type23_read_counterexample :
    (NewTDSHeader ((⟨[1, 0, 0, 5, 0, 0, 0, 0], [], none⟩ : LoopState).stream.take HEADER_SIZE)).headerType ≠ 23 ∧
    (NewTDSHeader ((⟨[1, 0, 0, 5, 0, 0, 0, 0], [], none⟩ : LoopState).stream.take HEADER_SIZE)).PayloadSize = -3 ∧
    ingressStep ⟨[1, 0, 0, 5, 0, 0, 0, 0], [], none⟩ = none := by
  refine ⟨by decide, by decide, ?_⟩
  exact ingressStep_none_of_neg_payload _ (by decide) (by decide)

/-- Claim C7, amended: in the ingress loop, a header of type 23 makes the
payload read request `4096 - 8 = 4088` bytes regardless of the declared
payload size, and what is forwarded upstream is the header plus exactly the
bytes actually read; for any other type, the read requests exactly
`payload_size` bytes (it is skipped when `payload_size ≤ 0`) and the
header plus exactly `payload_size` bytes are forwarded — provided
`payload_size ≥ 0`.  When the declared payload size is negative the
iteration panics inside `NewTDSPacket` and forwards nothing. -/
theorem type23_read_behavior (st : LoopState) :
    ((NewTDSHeader (st.stream.take HEADER_SIZE)).headerType = 23 →
      (ingressStep st).elim True fun out =>
        out.payloadRequest = some (0x1000 - HEADER_SIZE) ∧
        out.written = st.stream.take HEADER_SIZE ++ out.payloadRead) ∧
    ((NewTDSHeader (st.stream.take HEADER_SIZE)).headerType ≠ 23 →
      (ingressStep st).elim True fun out =>
        out.payloadRequest = (if 0 < (NewTDSHeader (st.stream.take HEADER_SIZE)).PayloadSize
          then some (NewTDSHeader (st.stream.take HEADER_SIZE)).PayloadSize.toNat else none) ∧
        out.written = st.stream.take HEADER_SIZE ++ out.payloadRead ∧
        out.payloadRead.length = (NewTDSHeader (st.stream.take HEADER_SIZE)).PayloadSize.toNat) ∧
    ((NewTDSHeader (st.stream.take HEADER_SIZE)).PayloadSize < 0 →
      HEADER_SIZE ≤ st.stream.length → ingressStep st = none) := by
  refine ⟨?_, ?_, ?_⟩
  · intro h23
    cases hs : ingressStep st with
    | none => trivial
    | some out =>
      obtain ⟨hlen, ⟨received, hr, hpr, hst⟩, hw, hhdr, hreq, hev, hmsg⟩ := ingressStep_char st out hs
      refine ⟨?_, hw⟩
      rw [hreq]
      unfold payloadRequestOf
      rw [if_pos h23]
  · intro h23
    cases hs : ingressStep st with
    | none => trivial
    | some out =>
      obtain ⟨hlen, ⟨received, hr, hpr, hst⟩, hw, hhdr, hreq, hev, hmsg⟩ := ingressStep_char st out hs
      have hrle := readReceived_le _ _ _ hr
      refine ⟨?_, hw, ?_⟩
      · rw [hreq]
        unfold payloadRequestOf
        rw [if_neg h23]
      · rw [hpr, List.length_take]
        have h1 := hrle.1
        have h2 := hrle.2 h23
        omega
  · intro hneg hlen8
    exact ingressStep_none_of_neg_payload st (by omega) hneg

/-- Witness for the amended C7: a type-23 packet whose stream holds one
byte after the header, and a negative-payload-size header. -/
theorem type23_read_behavior_witness :
    ((ingressStep ⟨[23, 0, 0, 9, 0, 0, 0, 0, 171], [], none⟩).elim True fun out =>
      out.payloadRequest = some (0x1000 - HEADER_SIZE) ∧
      out.written = ((⟨[23, 0, 0, 9, 0, 0, 0, 0, 171], [], none⟩ : LoopState).stream.take HEADER_SIZE)
        ++ out.payloadRead) ∧
    ingressStep ⟨[1, 0, 0, 5, 0, 0, 0, 0], [], none⟩ = none := by
  exact ⟨(type23_read_behavior ⟨[23, 0, 0, 9, 0, 0, 0, 0, 171], [], none⟩).1 (by decide),
    (type23_read_behavior ⟨[1, 0, 0, 5, 0, 0, 0, 0], [], none⟩).2.2 (by decide) (by decide)⟩

/-! ## Claim C4: message events

Spec-side description of the published callbacks: the packets read from the
stream are grouped into messages, each group ending at its first packet
with the end-of-message bit; for each completed group the loop publishes
the packet-received events in packet order followed by exactly one
message-received event carrying exactly that group, before any event of the
next group; trailing packets of an incomplete message produce only
packet-received events. -/

/-- Group a packet sequence into completed messages (each ending at a
packet with `END_OF_MESSAGE`) and a trailing incomplete remainder. -/
def chunkMessages : List TDSPacket → List (List TDSPacket) × List TDSPacket
  | [] => ([], [])
  | p :: ps =>
    if eomSet p then ([p] :: (chunkMessages ps).1, (chunkMessages ps).2)
    else
      match chunkMessages ps with
      | (g :: gs, rest) => ((p :: g) :: gs, rest)
      | ([], rest) => ([], p :: rest)

/-- The message a completed group denotes: classified by its first packet,
carrying exactly the group's packets. -/
def msgOf : List TDSPacket → TDSMessage
  | [] => ⟨.Default, []⟩
  | p :: ps => ⟨(CreateTDSMessageFromFirstPacket p).kind, p :: ps⟩

/-- The canonical event trace: per completed group, its packet events in
order then one message event; then the trailing packets' events. -/
def canonicalEvents (gs : List (List TDSPacket)) (rest : List TDSPacket) : List Event :=
  (gs.map fun g => g.map Event.packetReceived ++ [Event.messageReceived (msgOf g)]).flatten
    ++ rest.map Event.packetReceived

/-- The event trace the loop body produces from a packet sequence, carrying
the in-progress message exactly as `clientBridgeToSQLServer` does. -/
def replay : Option TDSMessage → List TDSPacket → List Event
  | _, [] => []
  | acc, p :: ps =>
    if eomSet p then
      Event.packetReceived p :: Event.messageReceived (accumulate acc p) :: replay none ps
    else
      Event.packetReceived p :: replay (some (accumulate acc p)) ps

/-- Canonical trace when a message `m` is already in progress: the first
group completes `m`. -/
def pendingEvents (m : TDSMessage) : List (List TDSPacket) × List TDSPacket → List Event
  | (g :: gs, rest) =>
    g.map Event.packetReceived ++
      Event.messageReceived ⟨m.kind, m.Packets ++ g⟩ :: canonicalEvents gs rest
  | ([], rest) => rest.map Event.packetReceived

theorem createTDSMessage_packets (p : TDSPacket) :
    (CreateTDSMessageFromFirstPacket p).Packets = [p] := by
  unfold CreateTDSMessageFromFirstPacket
  split <;> rfl

theorem createTDSMessage_eta (p : TDSPacket) :
    CreateTDSMessageFromFirstPacket p = ⟨(CreateTDSMessageFromFirstPacket p).kind, [p]⟩ := by
  have hp := createTDSMessage_packets p
  cases hm : CreateTDSMessageFromFirstPacket p with
  | mk k pk =>
    rw [hm] at hp
    simp only [] at hp
    rw [hp]

theorem canonicalEvents_cons (g : List TDSPacket) (gs : List (List TDSPacket))
    (rest : List TDSPacket) :
    canonicalEvents (g :: gs) rest =
      g.map Event.packetReceived ++
        Event.messageReceived (msgOf g) :: canonicalEvents gs rest := by
  unfold canonicalEvents
  rw [List.map_cons, List.flatten_cons, List.append_assoc, List.append_assoc]
  rfl

/-- The loop's event trace equals the canonical per-message trace, both
from a clean state and with a message already in progress. -/
theorem replay_canonical : ∀ ps : List TDSPacket,
    (replay none ps = canonicalEvents (chunkMessages ps).1 (chunkMessages ps).2) ∧
    (∀ m : TDSMessage, replay (some m) ps = pendingEvents m (chunkMessages ps)) := by
  intro ps
  induction ps with
  | nil =>
    constructor
    · rfl
    · intro m
      rfl
  | cons p ps ih =>
    constructor
    · cases he : eomSet p with
      | true =>
        rw [show replay none (p :: ps) = Event.packetReceived p ::
            Event.messageReceived (accumulate none p) :: replay none ps from by
          simp [replay, he]]
        rw [show chunkMessages (p :: ps) =
            ([p] :: (chunkMessages ps).1, (chunkMessages ps).2) from by
          simp [chunkMessages, he]]
        rw [ih.1, canonicalEvents_cons]
        rw [show msgOf [p] = CreateTDSMessageFromFirstPacket p from (createTDSMessage_eta p).symm]
        rfl
      | false =>
        rw [show replay none (p :: ps) = Event.packetReceived p ::
            replay (some (accumulate none p)) ps from by simp [replay, he]]
        rw [ih.2 (accumulate none p)]
        rw [show chunkMessages (p :: ps) = (match chunkMessages ps with
            | (g :: gs, rest) => ((p :: g) :: gs, rest)
            | ([], rest) => ([], p :: rest)) from by simp [chunkMessages, he]]
        cases hc : chunkMessages ps with
        | mk gl rest =>
          cases gl with
          | nil =>
            simp only [pendingEvents]
            unfold canonicalEvents
            simp
          | cons g gs =>
            simp only [pendingEvents]
            rw [canonicalEvents_cons]
            have hacc : accumulate none p = CreateTDSMessageFromFirstPacket p := rfl
            rw [hacc, createTDSMessage_packets]
            rw [show msgOf (p :: g) = ⟨(CreateTDSMessageFromFirstPacket p).kind, p :: g⟩ from rfl]
            simp
    · intro m
      cases he : eomSet p with
      | true =>
        rw [show replay (some m) (p :: ps) = Event.packetReceived p ::
            Event.messageReceived (accumulate (some m) p) :: replay none ps from by
          simp [replay, he]]
        rw [ih.1]
        rw [show chunkMessages (p :: ps) =
            ([p] :: (chunkMessages ps).1, (chunkMessages ps).2) from by
          simp [chunkMessages, he]]
        simp only [pendingEvents]
        rfl
      | false =>
        rw [show replay (some m) (p :: ps) = Event.packetReceived p ::
            replay (some (accumulate (some m) p)) ps from by simp [replay, he]]
        rw [ih.2 (accumulate (some m) p)]
        rw [show chunkMessages (p :: ps) = (match chunkMessages ps with
            | (g :: gs, rest) => ((p :: g) :: gs, rest)
            | ([], rest) => ([], p :: rest)) from by simp [chunkMessages, he]]
        cases hc : chunkMessages ps with
        | mk gl rest =>
          cases gl with
          | nil => simp [pendingEvents]
          | cons g gs =>
            simp only [pendingEvents]
            have haddp : accumulate (some m) p = ⟨m.kind, m.Packets ++ [p]⟩ := rfl
            rw [haddp]
            simp [List.append_assoc]

/-- The loop's published events are fully determined by the packet
sequence it reads, replayed through the in-progress-message logic of the
source. -/
theorem ingressLoop_events_replay : ∀ (fuel : Nat) (st : LoopState),
    (ingressLoop fuel st).events = replay st.msg (ingressLoop fuel st).packets := by
  intro fuel
  induction fuel with
  | zero =>
    intro st
    simp [ingressLoop, replay]
  | succ n ih =>
    intro st
    cases hs : ingressStep st with
    | none => simp [ingressLoop, hs, replay]
    | some out =>
      simp only [ingressLoop, hs]
      obtain ⟨-, -, -, -, -, hev, hmsg⟩ := ingressStep_char st out hs
      have ihs := ih out.state
      rw [hmsg] at ihs
      rw [hev, ihs]
      cases he : eomSet out.packet with
      | true => simp [replay, he]
      | false => simp [replay, he]

/-! The C4 theorem itself. -/

/-- Claim C4: running the ingress loop from a state with no in-progress
message, the published callbacks are exactly: for every message assembled
from the stream, the packet-received events of its packets in order,
followed by exactly one message-received event carrying precisely that
message, placed after the last packet event of the message and before any
packet event of a following message; a trailing incomplete message
publishes only packet events. -/
theorem message_received_once_ordered (fuel : Nat) (st : LoopState)
    (h : st.msg = none) :
    (ingressLoop fuel st).events =
      canonicalEvents (chunkMessages (ingressLoop fuel st).packets).1
        (chunkMessages (ingressLoop fuel st).packets).2 := by
  rw [ingressLoop_events_replay fuel st, h]
  exact (replay_canonical _).1

/-- Witness for C4: a single attention-signal packet (type 6, EOM, empty
payload) followed by end of stream. -/
theorem message_received_once_ordered_witness :
    (ingressLoop 2 ⟨[6, 1, 0, 8, 0, 0, 0, 0], [], none⟩).events =
      canonicalEvents
        (chunkMessages (ingressLoop 2 ⟨[6, 1, 0, 8, 0, 0, 0, 0], [], none⟩).packets).1
        (chunkMessages (ingressLoop 2 ⟨[6, 1, 0, 8, 0, 0, 0, 0], [], none⟩).packets).2 := by
  exact message_received_once_ordered 2 ⟨[6, 1, 0, 8, 0, 0, 0, 0], [], none⟩ rfl

end TDSBridge
